import Mathlib

/-!
Verification of the Smart Fence Guardian 2.0 dashboard
(`src/Smartfenceguardian2.0.py`) against its design specification.

The script is a single-pass pipeline: `simulate_signal` builds a synthetic
waveform (50 Hz sine + Gaussian noise, optionally an injected pulse on the
Python slice `500:800`), `detect_event` applies the fixed threshold
`max(signal) > 3.0` and on trigger fabricates a random event record, the
session event log is prepended (`insert(0, event)`), and the log can be
exported as CSV.

Randomness is embedded by passing the draws explicitly: `g : ℕ → ℝ` are the
per-sample standard-normal draws of `np.random.randn`, `r : ℝ` is the
`np.random.rand()` draw in `[0,1)`, and a `DetectEnv` carries the draws of
`random.choice`, `random.uniform(0.5, 2.5)` and the wall-clock string.
-/

namespace SmartFence

/-- `fs = 20000` from the source (named "sampling frequency" there, but used
as the sample count of `np.linspace`). -/
def fs : ℕ := 20000

/-- `t = np.linspace(0, 0.04, fs)`: `fs` evenly spaced points with both
endpoints included, so `t i = 0.04 * i / (fs - 1)`. -/
noncomputable def tSample (i : ℕ) : ℝ := 0.04 * i / 19999

/-- `base = np.sin(2*np.pi*50*t)`, the 50 Hz mains reference. -/
noncomputable def base (i : ℕ) : ℝ := Real.sin (2 * Real.pi * 50 * tSample i)

/-- The injected pulse array: `pulse = np.zeros_like(t); pulse[500:800] = 8 +
np.random.rand() * 2`.  The Python slice `500:800` covers indices
`500 ≤ i < 800`; `r` is the `np.random.rand()` draw. -/
noncomputable def pulseAt (i : ℕ) (r : ℝ) : ℝ :=
  if 500 ≤ i ∧ i < 800 then 8 + r * 2 else 0

/-- `simulate_signal(unauth)`: `base + noise` with `noise = 0.02 *
np.random.randn(len(t))`, plus the pulse when `unauth` is set.  `g i` is the
`i`-th standard-normal draw. -/
noncomputable def simulate_signal (unauth : Bool) (g : ℕ → ℝ) (r : ℝ) : List ℝ :=
  if unauth then
    List.ofFn (fun i : Fin fs => base i + 0.02 * g i + pulseAt i r)
  else
    List.ofFn (fun i : Fin fs => base i + 0.02 * g i)

/-- `np.max` over a sample list (signals here are never empty). -/
noncomputable def maxList : List ℝ → ℝ
  | [] => 0
  | x :: l => l.foldl max x

lemma le_foldl_max_init (l : List ℝ) : ∀ a : ℝ, a ≤ l.foldl max a := by
  induction l with
  | nil => intro a; simp
  | cons c l ih =>
    intro a
    calc a ≤ max a c := le_max_left a c
    _ ≤ l.foldl max (max a c) := ih (max a c)
    _ = (c :: l).foldl max a := by simp [List.foldl]

lemma le_foldl_max_mem (l : List ℝ) : ∀ (a x : ℝ), x ∈ l → x ≤ l.foldl max a := by
  induction l with
  | nil => intro a x hx; simp at hx
  | cons c l ih =>
    intro a x hx
    rcases List.mem_cons.mp hx with h | h
    · subst h
      calc x ≤ max a x := le_max_right a x
      _ ≤ l.foldl max (max a x) := le_foldl_max_init l _
      _ = (x :: l).foldl max a := by simp [List.foldl]
    · simpa [List.foldl] using ih (max a c) x h

lemma foldl_max_le (l : List ℝ) :
    ∀ (a b : ℝ), a ≤ b → (∀ x ∈ l, x ≤ b) → l.foldl max a ≤ b := by
  induction l with
  | nil => intro a b ha _; simpa using ha
  | cons c l ih =>
    intro a b ha h
    have hc : c ≤ b := h c (List.mem_cons_self c l)
    have : (c :: l).foldl max a = l.foldl max (max a c) := by simp [List.foldl]
    rw [this]
    exact ih (max a c) b (max_le ha hc) (fun x hx => h x (List.mem_cons_of_mem c hx))

lemma le_maxList {l : List ℝ} {x : ℝ} (hx : x ∈ l) : x ≤ maxList l := by
  cases l with
  | nil => simp at hx
  | cons a l =>
    rcases List.mem_cons.mp hx with h | h
    · subst h; exact le_foldl_max_init l x
    · exact le_foldl_max_mem l a x h

lemma maxList_le {l : List ℝ} {b : ℝ} (hb : 0 ≤ b) (h : ∀ x ∈ l, x ≤ b) :
    maxList l ≤ b := by
  cases l with
  | nil => simpa [maxList] using hb
  | cons a l =>
    exact foldl_max_le l a b (h a (List.mem_cons_self a l))
      (fun x hx => h x (List.mem_cons_of_mem a hx))

/-- An event record as built by `detect_event`; strings are modelled as
`List Char`. -/
structure Event where
  time : List Char
  substation : List Char
  feeder : List Char
  location : List Char
  status : List Char
deriving DecidableEq, Repr

/-- `feeders = ["Feeder-1", "Feeder-2", "Feeder-3"]`. -/
def feeders : List (List Char) :=
  ["Feeder-1".toList, "Feeder-2".toList, "Feeder-3".toList]

/-- `substations = ["Substation-A", "Substation-B"]`. -/
def substations : List (List Char) :=
  ["Substation-A".toList, "Substation-B".toList]

/-- The draws `detect_event` makes on trigger: `random.choice(feeders)`,
`random.choice(substations)`, `random.uniform(0.5, 2.5)` and the wall-clock
string `time.strftime("%H:%M:%S")`. -/
structure DetectEnv where
  feederIdx : Fin 3
  substationIdx : Fin 2
  u : ℝ
  now : List Char

/-- Python's string rendering of the float `round(x, 2)` for a nonnegative
value given in hundredths `k` (so the value is `k / 100`): the shortest
decimal digit string, dropping trailing fractional zeros but always keeping
at least one fractional digit (`150 ↦ "1.5"`, `200 ↦ "2.0"`, `105 ↦ "1.05"`,
`123 ↦ "1.23"`). -/
def pyRepr2 (k : ℕ) : List Char :=
  let ip := k / 100
  let fr := k % 100
  if fr = 0 then (Nat.repr ip).toList ++ ".0".toList
  else if fr % 10 = 0 then (Nat.repr ip).toList ++ ".".toList ++ (Nat.repr (fr / 10)).toList
  else if fr < 10 then (Nat.repr ip).toList ++ ".0".toList ++ (Nat.repr fr).toList
  else (Nat.repr ip).toList ++ ".".toList ++ (Nat.repr fr).toList

/-- `detect_event(signal)`: if `np.max(signal) > 3.0`, build the event record
with the random draws of `env`; else return `None`.  `location_km =
round(random.uniform(0.5, 2.5), 2)` becomes `round (env.u * 100)` hundredths
(the model covers the nonnegative draws `random.uniform(0.5, 2.5)` can
produce), and `f"{location_km} km"` becomes `pyRepr2 … ++ " km"`. -/
noncomputable def detect_event (signal : List ℝ) (env : DetectEnv) : Option Event :=
  if 3 < maxList signal then
    some {
      time := env.now
      substation := substations.get ⟨env.substationIdx, by simp [substations]⟩
      feeder := feeders.get ⟨env.feederIdx, by simp [feeders]⟩
      location := pyRepr2 (round (env.u * 100)).toNat ++ " km".toList
      status := "Unauthorized Fence".toList }
  else none

lemma detect_event_isSome_iff (signal : List ℝ) (env : DetectEnv) :
    (detect_event signal env).isSome = true ↔ 3 < maxList signal := by
  unfold detect_event
  by_cases h : 3 < maxList signal
  · simp [h]
  · simp [h]

lemma detect_event_eq_none_iff (signal : List ℝ) (env : DetectEnv) :
    detect_event signal env = none ↔ maxList signal ≤ 3 := by
  unfold detect_event
  by_cases h : 3 < maxList signal
  · simp [h, not_le.mpr h]
  · simp [h, not_lt.mp h]

lemma simulate_signal_length (unauth : Bool) (g : ℕ → ℝ) (r : ℝ) :
    (simulate_signal unauth g r).length = fs := by
  unfold simulate_signal
  cases unauth
  · rw [if_neg (by simp)]
    exact List.length_ofFn _
  · rw [if_pos rfl]
    exact List.length_ofFn _

lemma simulate_signal_true_eq (g : ℕ → ℝ) (r : ℝ) :
    simulate_signal true g r =
      List.ofFn (fun i : Fin fs => base i + 0.02 * g i + pulseAt i r) := by
  unfold simulate_signal
  rw [if_pos rfl]

lemma simulate_signal_false_eq (g : ℕ → ℝ) (r : ℝ) :
    simulate_signal false g r =
      List.ofFn (fun i : Fin fs => base i + 0.02 * g i) := by
  unfold simulate_signal
  rw [if_neg (by simp)]

lemma simulate_signal_true_getD (g : ℕ → ℝ) (r : ℝ) (i : ℕ) (h : i < fs) :
    (simulate_signal true g r).getD i 0 = base i + 0.02 * g i + pulseAt i r := by
  have h' : i < (List.ofFn fun j : Fin fs => base j + 0.02 * g j + pulseAt j r).length := by
    rw [List.length_ofFn]; exact h
  rw [simulate_signal_true_eq, List.getD_eq_getElem _ _ h']
  exact List.getElem_ofFn _ _ _

lemma simulate_signal_false_getD (g : ℕ → ℝ) (r : ℝ) (i : ℕ) (h : i < fs) :
    (simulate_signal false g r).getD i 0 = base i + 0.02 * g i := by
  have h' : i < (List.ofFn fun j : Fin fs => base j + 0.02 * g j).length := by
    rw [List.length_ofFn]; exact h
  rw [simulate_signal_false_eq, List.getD_eq_getElem _ _ h']
  exact List.getElem_ofFn _ _ _

lemma simulate_signal_true_mem (g : ℕ → ℝ) (r : ℝ) (i : ℕ) (h : i < fs) :
    base i + 0.02 * g i + pulseAt i r ∈ simulate_signal true g r := by
  rw [simulate_signal_true_eq]
  exact (List.mem_ofFn _ _).mpr ⟨⟨i, h⟩, rfl⟩

lemma base_bounds (i : ℕ) : -1 ≤ base i ∧ base i ≤ 1 :=
  ⟨Real.neg_one_le_sin _, Real.sin_le_one _⟩

/-- With the pulse injected and every scaled noise sample of magnitude at
most 2, the sample at index 500 already exceeds the threshold, hence so does
the maximum. -/
lemma maxList_simulate_true_gt (g : ℕ → ℝ) (r : ℝ)
    (hg : ∀ i, |0.02 * g i| ≤ 2) (hr : 0 ≤ r) :
    3 < maxList (simulate_signal true g r) := by
  have h500 : (500 : ℕ) < fs := by norm_num [fs]
  have hmem := simulate_signal_true_mem g r 500 h500
  have hpulse : pulseAt 500 r = 8 + r * 2 := by
    unfold pulseAt
    rw [if_pos (by norm_num)]
  have hnoise : -2 ≤ 0.02 * g 500 := neg_le_of_abs_le (hg 500)
  have hbase : -1 ≤ base 500 := (base_bounds 500).1
  have hgt : (3 : ℝ) < base 500 + 0.02 * g 500 + pulseAt 500 r := by
    rw [hpulse]
    nlinarith
  exact lt_of_lt_of_le hgt (le_maxList hmem)

/-- Without the pulse and with every scaled noise sample of magnitude at most
2, every sample is at most `1 + 2 = 3`, hence so is the maximum. -/
lemma maxList_simulate_false_le (g : ℕ → ℝ) (r : ℝ)
    (hg : ∀ i, |0.02 * g i| ≤ 2) :
    maxList (simulate_signal false g r) ≤ 3 := by
  apply maxList_le (by norm_num)
  intro x hx
  rw [simulate_signal_false_eq] at hx
  rcases (List.mem_ofFn _ _).mp hx with ⟨i, hi⟩
  have hbase : base (i : ℕ) ≤ 1 := (base_bounds i).2
  have hnoise : 0.02 * g (i : ℕ) ≤ 2 := le_of_abs_le (hg i)
  rw [← hi]
  exact add_le_add hbase hnoise |>.trans (by norm_num)

/-- Claim C1: the detector returns an event record exactly when
`max(signal) > 3.0`: for every signal with maximum above the threshold it
returns a record, and for every signal with maximum at most 3.0 it returns
`None`. -/
theorem detect_event_iff_threshold (signal : List ℝ) (env : DetectEnv) :
    ((detect_event signal env).isSome = true ↔ 3 < maxList signal) ∧
    (detect_event signal env = none ↔ maxList signal ≤ 3) :=
  ⟨detect_event_isSome_iff signal env, detect_event_eq_none_iff signal env⟩

/-- Claim C2, counterexample: detection with `unauth = true` is not
unconditional over all Gaussian noise draws.  With noise draws `g i = -1000`
(scaled noise `-20`) and pulse draw `r = 0`, every sample is at most
`1 - 20 + 8 < 3`, so the signal's maximum does not exceed the threshold. -/
theorem unauth_trigger_fails_for_large_noise :
    (0 : ℝ) ≤ 0 ∧ (0 : ℝ) < 1 ∧
    ¬ 3 < maxList (simulate_signal true (fun _ => -1000) 0) := by
  refine ⟨le_refl 0, by norm_num, not_lt.mpr ?_⟩
  apply maxList_le (by norm_num)
  intro x hx
  rw [simulate_signal_true_eq] at hx
  rcases (List.mem_ofFn _ _).mp hx with ⟨i, hi⟩
  have hbase : base (i : ℕ) ≤ 1 := (base_bounds i).2
  have hpulse : pulseAt (i : ℕ) 0 ≤ 8 := by
    unfold pulseAt
    by_cases h : 500 ≤ (i : ℕ) ∧ (i : ℕ) < 800
    · rw [if_pos h]; norm_num
    · rw [if_neg h]; norm_num
  rw [← hi]
  nlinarith

/-- Claim C2, amended: for every refresh with `unauth = true` in which every
scaled Gaussian noise sample has magnitude at most 2 and the uniform pulse
draw is nonnegative, the generated signal's maximum exceeds the threshold
3.0 and the detector returns an event record. -/
theorem unauth_triggers_detection (g : ℕ → ℝ) (r : ℝ) (env : DetectEnv)
    (hg : ∀ i, |0.02 * g i| ≤ 2) (hr : 0 ≤ r) :
    3 < maxList (simulate_signal true g r) ∧
    (detect_event (simulate_signal true g r) env).isSome = true := by
  have h := maxList_simulate_true_gt g r hg hr
  exact ⟨h, (detect_event_isSome_iff _ env).mpr h⟩

/-- Witness for `unauth_triggers_detection` at the zero noise and pulse
draws. -/
theorem unauth_triggers_detection_w :
    (∀ i : ℕ, |0.02 * (fun _ : ℕ => (0 : ℝ)) i| ≤ 2) ∧ (0 : ℝ) ≤ 0 ∧
    (3 < maxList (simulate_signal true (fun _ => 0) 0) ∧
      (detect_event (simulate_signal true (fun _ => 0) 0)
        ⟨0, 0, 1, []⟩).isSome = true) := by
  have hg : ∀ i : ℕ, |0.02 * (fun _ : ℕ => (0 : ℝ)) i| ≤ 2 := by
    intro i; simp
  exact ⟨hg, le_refl 0, unauth_triggers_detection (fun _ => 0) 0 ⟨0, 0, 1, []⟩ hg (le_refl 0)⟩

/-- Claim C9: for every refresh with `unauth = false`, under the hypothesis
that every scaled Gaussian noise sample has magnitude at most 2, the
generated signal's maximum is at most 3.0 and the detector returns
nothing. -/
theorem auth_no_trigger (g : ℕ → ℝ) (r : ℝ) (env : DetectEnv)
    (hg : ∀ i, |0.02 * g i| ≤ 2) :
    maxList (simulate_signal false g r) ≤ 3 ∧
    detect_event (simulate_signal false g r) env = none := by
  have h := maxList_simulate_false_le g r hg
  exact ⟨h, (detect_event_eq_none_iff _ env).mpr h⟩

/-- Witness for `auth_no_trigger` at the zero noise draw. -/
theorem auth_no_trigger_w :
    (∀ i : ℕ, |0.02 * (fun _ : ℕ => (0 : ℝ)) i| ≤ 2) ∧
    (maxList (simulate_signal false (fun _ => 0) 0) ≤ 3 ∧
      detect_event (simulate_signal false (fun _ => 0) 0) ⟨0, 0, 1, []⟩ = none) := by
  have hg : ∀ i : ℕ, |0.02 * (fun _ : ℕ => (0 : ℝ)) i| ≤ 2 := by
    intro i; simp
  exact ⟨hg, auth_no_trigger (fun _ => 0) 0 ⟨0, 0, 1, []⟩ hg⟩

/-- Claim C3 (code bug): the generator always succeeds and returns the same
deterministic sample count in both branches, but that count is `fs = 20000`
(the `np.linspace` point count), not window length × sample rate
`0.04 × 20000 = 800` as the spec's formula (and the source's own comments
calling `fs` the "sampling frequency" over a 40 ms window) would give. -/
theorem simulate_signal_count (unauth : Bool) (g : ℕ → ℝ) (r : ℝ) :
    (simulate_signal unauth g r).length = 20000 ∧ (20000 : ℕ) ≠ 800 :=
  ⟨simulate_signal_length unauth g r, by norm_num⟩

/-- Claim C4, counterexample: with the index range read inclusively
(`500 ≤ i ≤ 800`), no single pulse value `p` works: at the concrete draws
`g = 0`, `r = 0`, index 500 forces `p = 8` while index 800 (not covered by
the Python slice `500:800`) forces `p = 0`. -/
theorem pulse_range_inclusive_fails :
    ¬ ∃ p : ℝ,
      (∀ i : ℕ, 500 ≤ i → i ≤ 800 →
        (simulate_signal true (fun _ => 0) 0).getD i 0 = base i + 0.02 * 0 + p) ∧
      (∀ i : ℕ, i < fs → ¬ (500 ≤ i ∧ i ≤ 800) →
        (simulate_signal true (fun _ => 0) 0).getD i 0 = base i + 0.02 * 0) := by
  rintro ⟨p, hin, -⟩
  have e500 : (simulate_signal true (fun _ => 0) 0).getD 500 0 =
      base 500 + 0.02 * 0 + pulseAt 500 0 :=
    simulate_signal_true_getD (fun _ => 0) 0 500 (by norm_num [fs])
  have e800 : (simulate_signal true (fun _ => 0) 0).getD 800 0 =
      base 800 + 0.02 * 0 + pulseAt 800 0 :=
    simulate_signal_true_getD (fun _ => 0) 0 800 (by norm_num [fs])
  have p500 : pulseAt 500 0 = 8 := by
    unfold pulseAt
    rw [if_pos (by norm_num)]
    norm_num
  have p800 : pulseAt 800 0 = 0 := by
    unfold pulseAt
    rw [if_neg (by norm_num)]
  have h1 := hin 500 (le_refl 500) (by norm_num)
  have h2 := hin 800 (by norm_num) (le_refl 800)
  rw [e500, p500] at h1
  rw [e800, p800] at h2
  have hp8 : p = 8 := by linarith
  have hp0 : p = 0 := by linarith
  rw [hp8] at hp0
  norm_num at hp0

/-- Claim C4, amended: when `unauth` is true there is a single per-refresh
pulse value `p = 8 + r * 2` (`r` the uniform draw, so `p = 8 + U(0,2)`) such
that the signal equals `base i + noise i + p` at every index of the
half-open Python slice range `500 ≤ i < 800` and `base i + noise i` at every
in-bounds index outside it (index 800 included). -/
theorem pulse_slice_characterization (g : ℕ → ℝ) (r : ℝ) (i : ℕ) (h : i < fs) :
    ((500 ≤ i ∧ i < 800) →
      (simulate_signal true g r).getD i 0 = base i + 0.02 * g i + (8 + r * 2)) ∧
    (¬ (500 ≤ i ∧ i < 800) →
      (simulate_signal true g r).getD i 0 = base i + 0.02 * g i) := by
  have hv := simulate_signal_true_getD g r i h
  constructor
  · intro hi
    rw [hv]
    unfold pulseAt
    rw [if_pos hi]
  · intro hi
    rw [hv]
    unfold pulseAt
    rw [if_neg hi]
    ring

/-- Witness for `pulse_slice_characterization` at index 600 with zero
draws. -/
theorem pulse_slice_characterization_w :
    ((500 ≤ 600 ∧ 600 < 800) →
      (simulate_signal true (fun _ => 0) 0).getD 600 0 = base 600 + 0.02 * 0 + (8 + 0 * 2)) ∧
    (¬ (500 ≤ 600 ∧ 600 < 800) →
      (simulate_signal true (fun _ => 0) 0).getD 600 0 = base 600 + 0.02 * 0) :=
  pulse_slice_characterization (fun _ => 0) 0 600 (by norm_num [fs])

/-- `rms_vals = np.sqrt(np.convolve(signal**2, np.ones(window)/window,
mode="valid"))` with `window = 500`: entry `k` is the square root of the
mean of the 500 squared samples starting at `k`. -/
noncomputable def rms_vals (signal : List ℝ) : List ℝ :=
  (List.range (signal.length - 500 + 1)).map (fun k =>
    Real.sqrt ((∑ j ∈ Finset.range 500, signal.getD (k + j) 0 ^ 2) / 500))

/-- Claim C5: for every input of length at least 500, the rolling RMS output
has length exactly `input length − 500 + 1` and every output value is
non-negative. -/
theorem rms_vals_spec (signal : List ℝ) (h : 500 ≤ signal.length) :
    (rms_vals signal).length = signal.length - 500 + 1 ∧
    ∀ x ∈ rms_vals signal, 0 ≤ x := by
  constructor
  · unfold rms_vals
    rw [List.length_map, List.length_range]
  · intro x hx
    unfold rms_vals at hx
    rcases List.mem_map.mp hx with ⟨k, -, hk⟩
    rw [← hk]
    exact Real.sqrt_nonneg _

/-- Witness for `rms_vals_spec` on the all-zero signal of length 500. -/
theorem rms_vals_spec_w :
    500 ≤ (List.replicate 500 (0 : ℝ)).length ∧
    ((rms_vals (List.replicate 500 (0 : ℝ))).length =
        (List.replicate 500 (0 : ℝ)).length - 500 + 1 ∧
      ∀ x ∈ rms_vals (List.replicate 500 (0 : ℝ)), 0 ≤ x) := by
  have h : 500 ≤ (List.replicate 500 (0 : ℝ)).length := by
    rw [List.length_replicate]
  exact ⟨h, rms_vals_spec _ h⟩

/-- One UI refresh re-runs the script top to bottom with fresh random draws:
`signal = simulate_signal(unauth)` then `event = detect_event(signal)`. -/
structure Refresh where
  unauth : Bool
  g : ℕ → ℝ
  r : ℝ
  env : DetectEnv

/-- The `event` value a refresh computes (lines 66–67 of the source). -/
noncomputable def refreshEvent (x : Refresh) : Option Event :=
  detect_event (simulate_signal x.unauth x.g x.r) x.env

/-- The session-log update of lines 126–134: on an event,
`st.session_state["events"].insert(0, event)`; otherwise the log is left
alone. -/
noncomputable def stepLog (x : Refresh) (log : List Event) : List Event :=
  match refreshEvent x with
  | some e => e :: log
  | none => log

/-- A whole session: the refreshes applied in order to the starting log
(`[]` when the session begins). -/
noncomputable def runSession (xs : List Refresh) (log : List Event) : List Event :=
  xs.foldl (fun l x => stepLog x l) log

lemma runSession_eq (xs : List Refresh) :
    ∀ log, runSession xs log = (xs.filterMap refreshEvent).reverse ++ log := by
  induction xs with
  | nil => intro log; simp [runSession]
  | cons x xs ih =>
    intro log
    have hstep : runSession (x :: xs) log = runSession xs (stepLog x log) := rfl
    rw [hstep, ih]
    unfold stepLog
    cases hx : refreshEvent x with
    | some e => simp [List.filterMap_cons, hx]
    | none => simp [List.filterMap_cons, hx]

lemma length_filterMap_refreshEvent (xs : List Refresh)
    (h : ∀ x ∈ xs, (refreshEvent x).isSome = true) :
    (xs.filterMap refreshEvent).length = xs.length := by
  induction xs with
  | nil => rfl
  | cons x xs ih =>
    have hx := h x (List.mem_cons_self x xs)
    rcases Option.isSome_iff_exists.mp hx with ⟨e, he⟩
    rw [List.filterMap_cons, he]
    simp [ih (fun y hy => h y (List.mem_cons_of_mem x hy))]

lemma detect_event_some_threshold {s : List ℝ} {env : DetectEnv} {e : Event}
    (h : detect_event s env = some e) : 3 < maxList s := by
  by_contra hc
  rw [(detect_event_eq_none_iff s env).mpr (not_lt.mp hc)] at h
  exact Option.noConfusion h

/-- Claim C6: the event log is prepend-only and newest-first: after `N`
triggered detections in a session the log has length exactly `N`, the log is
the detections in reverse (newest-first) order with `log[0]` the most recent
event, every logged element came from a refresh whose signal satisfied the
detection threshold when it was appended, and a refresh only ever prepends
(the old log survives as a suffix: nothing is mutated or removed). -/
theorem eventLog_newest_first (xs : List Refresh)
    (htrig : ∀ x ∈ xs, (refreshEvent x).isSome = true) :
    (runSession xs []).length = xs.length ∧
    runSession xs [] = (xs.filterMap refreshEvent).reverse ∧
    (∀ e ∈ runSession xs [], ∃ x ∈ xs, refreshEvent x = some e ∧
      3 < maxList (simulate_signal x.unauth x.g x.r)) ∧
    (∀ (y : Refresh) (ys : List Refresh), xs = ys ++ [y] →
      (runSession xs []).head? = refreshEvent y) ∧
    (∀ (x : Refresh) (log : List Event), log.IsSuffix (stepLog x log)) := by
  have hrun : runSession xs [] = (xs.filterMap refreshEvent).reverse := by
    rw [runSession_eq xs []]
    simp
  refine ⟨?_, hrun, ?_, ?_, ?_⟩
  · rw [hrun, List.length_reverse, length_filterMap_refreshEvent xs htrig]
  · intro e he
    rw [hrun, List.mem_reverse] at he
    rcases List.mem_filterMap.mp he with ⟨x, hx, hfx⟩
    exact ⟨x, hx, hfx, detect_event_some_threshold hfx⟩
  · intro y ys hxs
    rcases Option.isSome_iff_exists.mp
      (htrig y (by rw [hxs]; simp)) with ⟨e, he⟩
    rw [hrun, hxs, List.filterMap_append]
    simp [List.filterMap_cons, he]
  · intro x log
    unfold stepLog
    cases refreshEvent x with
    | some e => exact List.suffix_cons e log
    | none => exact List.suffix_refl log

/-- Witness for `eventLog_newest_first` on a one-refresh session whose
refresh injects the pulse with zero draws. -/
theorem eventLog_newest_first_w :
    (∀ x ∈ [(⟨true, fun _ => 0, 0, ⟨0, 0, 1, []⟩⟩ : Refresh)],
      (refreshEvent x).isSome = true) ∧
    ((runSession [⟨true, fun _ => 0, 0, ⟨0, 0, 1, []⟩⟩] []).length =
        [(⟨true, fun _ => 0, 0, ⟨0, 0, 1, []⟩⟩ : Refresh)].length ∧
      runSession [⟨true, fun _ => 0, 0, ⟨0, 0, 1, []⟩⟩] [] =
        ([(⟨true, fun _ => 0, 0, ⟨0, 0, 1, []⟩⟩ : Refresh)].filterMap refreshEvent).reverse ∧
      (∀ e ∈ runSession [⟨true, fun _ => 0, 0, ⟨0, 0, 1, []⟩⟩] [],
        ∃ x ∈ [(⟨true, fun _ => 0, 0, ⟨0, 0, 1, []⟩⟩ : Refresh)],
          refreshEvent x = some e ∧
          3 < maxList (simulate_signal x.unauth x.g x.r)) ∧
      (∀ (y : Refresh) (ys : List Refresh),
        [(⟨true, fun _ => 0, 0, ⟨0, 0, 1, []⟩⟩ : Refresh)] = ys ++ [y] →
        (runSession [⟨true, fun _ => 0, 0, ⟨0, 0, 1, []⟩⟩] []).head? = refreshEvent y) ∧
      (∀ (x : Refresh) (log : List Event), log.IsSuffix (stepLog x log))) := by
  have htrig : ∀ x ∈ [(⟨true, fun _ => 0, 0, ⟨0, 0, 1, []⟩⟩ : Refresh)],
      (refreshEvent x).isSome = true := by
    intro x hx
    rw [List.mem_singleton] at hx
    subst hx
    exact (detect_event_isSome_iff _ _).mpr
      (maxList_simulate_true_gt _ _ (fun i => by simp) (le_refl 0))
  exact ⟨htrig, eventLog_newest_first _ htrig⟩

/-- Claim C10: on every refresh in which the detector returns nothing, the
session event log is left completely unchanged. -/
theorem no_event_log_unchanged (x : Refresh) (log : List Event)
    (h : refreshEvent x = none) : stepLog x log = log := by
  unfold stepLog
  rw [h]

/-- Witness for `no_event_log_unchanged` on a pulse-free refresh with zero
noise draws and a one-event starting log. -/
theorem no_event_log_unchanged_w :
    refreshEvent ⟨false, fun _ => 0, 0, ⟨0, 0, 1, []⟩⟩ = none ∧
    stepLog ⟨false, fun _ => 0, 0, ⟨0, 0, 1, []⟩⟩
        [⟨"12:00:00".toList, "Substation-A".toList, "Feeder-1".toList,
          "1.0 km".toList, "Unauthorized Fence".toList⟩] =
      [⟨"12:00:00".toList, "Substation-A".toList, "Feeder-1".toList,
        "1.0 km".toList, "Unauthorized Fence".toList⟩] := by
  have hnone : refreshEvent ⟨false, fun _ => 0, 0, ⟨0, 0, 1, []⟩⟩ = none :=
    (detect_event_eq_none_iff _ _).mpr
      (maxList_simulate_false_le _ _ (fun i => by simp))
  exact ⟨hnone, no_event_log_unchanged _ _ hnone⟩

/-- Joining fields with a separator character: the text `df_events.to_csv`
produces is the comma-joined fields of each row, newline-joined. -/
def joinChar (sep : Char) : List (List Char) → List Char
  | [] => []
  | [f] => f
  | f :: g :: fs => f ++ sep :: joinChar sep (g :: fs)

/-- Modelled from the spec: the re-parsing half of the "export then
re-parse" round trip.  The source only writes the file
(`df_events.to_csv(index=False).encode('utf-8')`); the reader of the
downloaded CSV is not part of the source, so it is modelled from the spec's
words as splitting the text on newlines and each line on commas. -/
def splitChar (sep : Char) : List Char → List (List Char)
  | [] => [[]]
  | c :: cs =>
    if c = sep then [] :: splitChar sep cs
    else
      match splitChar sep cs with
      | [] => [[c]]
      | h :: t => (c :: h) :: t

lemma splitChar_cons (sep c : Char) (cs : List Char) :
    splitChar sep (c :: cs) =
      if c = sep then [] :: splitChar sep cs
      else
        match splitChar sep cs with
        | [] => [[c]]
        | h :: t => (c :: h) :: t := by
  rw [splitChar]

lemma splitChar_no_sep {sep : Char} : ∀ {f : List Char}, sep ∉ f →
    splitChar sep f = [f] := by
  intro f
  induction f with
  | nil => intro _; rfl
  | cons c f ih =>
    intro h
    have hc : ¬ c = sep := fun hcs => h (hcs ▸ List.mem_cons_self c f)
    have hf : sep ∉ f := fun hs => h (List.mem_cons_of_mem c hs)
    rw [splitChar_cons, if_neg hc, ih hf]

lemma splitChar_cut {sep : Char} : ∀ {f rest : List Char}, sep ∉ f →
    splitChar sep (f ++ sep :: rest) = f :: splitChar sep rest := by
  intro f
  induction f with
  | nil =>
    intro rest _
    rw [List.nil_append, splitChar_cons, if_pos rfl]
  | cons c f ih =>
    intro rest h
    have hc : ¬ c = sep := fun hcs => h (hcs ▸ List.mem_cons_self c f)
    have hf : sep ∉ f := fun hs => h (List.mem_cons_of_mem c hs)
    have hcons : (c :: f) ++ sep :: rest = c :: (f ++ sep :: rest) := rfl
    rw [hcons, splitChar_cons, if_neg hc, ih hf]

lemma splitChar_ne_nil (sep : Char) (l : List Char) : splitChar sep l ≠ [] := by
  cases l with
  | nil => simp [splitChar]
  | cons c cs =>
    rw [splitChar_cons]
    by_cases h : c = sep
    · rw [if_pos h]
      simp
    · rw [if_neg h]
      cases hs : splitChar sep cs with
      | nil => simp
      | cons a t => simp

lemma splitChar_concat_sep (sep : Char) : ∀ xs : List Char,
    splitChar sep (xs ++ [sep]) = splitChar sep xs ++ [[]] := by
  intro xs
  induction xs with
  | nil =>
    rw [List.nil_append, splitChar_cons, if_pos rfl]
    rfl
  | cons c xs ih =>
    have hstep : (c :: xs) ++ [sep] = c :: (xs ++ [sep]) := rfl
    rw [hstep, splitChar_cons, splitChar_cons]
    by_cases h : c = sep
    · rw [if_pos h, if_pos h, ih, List.cons_append]
    · rw [if_neg h, if_neg h, ih]
      cases hs : splitChar sep xs with
      | nil => exact absurd hs (splitChar_ne_nil sep xs)
      | cons a t => simp

lemma splitChar_joinChar {sep : Char} : ∀ {fs : List (List Char)}, fs ≠ [] →
    (∀ f ∈ fs, sep ∉ f) → splitChar sep (joinChar sep fs) = fs := by
  intro fs
  induction fs with
  | nil => intro h _; exact absurd rfl h
  | cons f fs ih =>
    intro _ hall
    cases fs with
    | nil =>
      have hone : joinChar sep [f] = f := rfl
      rw [hone]
      exact splitChar_no_sep (hall f (List.mem_cons_self f []))
    | cons g fs' =>
      have hjoin : joinChar sep (f :: g :: fs') = f ++ sep :: joinChar sep (g :: fs') := rfl
      rw [hjoin, splitChar_cut (hall f (List.mem_cons_self f _)),
        ih (by simp) (fun x hx => hall x (List.mem_cons_of_mem f hx))]

lemma mem_joinChar {sep c : Char} : ∀ {fs : List (List Char)},
    c ∈ joinChar sep fs → c = sep ∨ ∃ f ∈ fs, c ∈ f := by
  intro fs
  induction fs with
  | nil => intro h; exact absurd h (List.not_mem_nil c)
  | cons f fs ih =>
    intro h
    cases fs with
    | nil =>
      exact Or.inr ⟨f, List.mem_cons_self f [], h⟩
    | cons g fs' =>
      have hjoin : joinChar sep (f :: g :: fs') = f ++ sep :: joinChar sep (g :: fs') := rfl
      rw [hjoin] at h
      rcases List.mem_append.mp h with h | h
      · exact Or.inr ⟨f, List.mem_cons_self f _, h⟩
      · rcases List.mem_cons.mp h with h | h
        · exact Or.inl h
        · rcases ih h with h | ⟨x, hx, hcx⟩
          · exact Or.inl h
          · exact Or.inr ⟨x, List.mem_cons_of_mem f hx, hcx⟩

/-- The header row written by `to_csv`: the DataFrame column order is the
insertion order of the event dict keys. -/
def headerRow : List (List Char) :=
  ["time".toList, "substation".toList, "feeder".toList, "location".toList,
    "status".toList]

/-- One CSV data row: the event's field values in column order. -/
def eventRow (e : Event) : List (List Char) :=
  [e.time, e.substation, e.feeder, e.location, e.status]

/-- The text of `df_events.to_csv(index=False)`: header line then one line
per logged event, in log (newest-first) order, every line — the last
included — terminated by the newline `to_csv` writes. -/
def encodeCsv (log : List Event) : List Char :=
  joinChar (Char.ofNat 10) ((headerRow :: log.map eventRow).map (joinChar ',')) ++
    [Char.ofNat 10]

/-- Modelled from the spec: the lines of the exported text.  The newline is
a line terminator, so a final newline ends the last line rather than
opening an empty one (CSV readers, pandas included, read it that way): an
empty trailing segment of the newline split is dropped. -/
def csvLines (s : List Char) : List (List Char) :=
  if (splitChar (Char.ofNat 10) s).getLast? = some [] then
    (splitChar (Char.ofNat 10) s).dropLast
  else splitChar (Char.ofNat 10) s

/-- Modelled from the spec: re-parsing the exported file — split the text
into lines and each line into comma-separated fields. -/
def parseCsv (s : List Char) : List (List (List Char)) :=
  (csvLines s).map (splitChar ',')

/-- A field value that the plain comma/newline format represents faithfully
(no separator characters inside the field; `to_csv` would otherwise quote
it, and every value the program actually writes is of this shape). -/
def goodField (f : List Char) : Prop := ',' ∉ f ∧ Char.ofNat 10 ∉ f

instance (f : List Char) : Decidable (goodField f) := by
  unfold goodField
  infer_instance

/-- All five field values of an event are plain (separator-free). -/
def wellFormedEvent (e : Event) : Prop :=
  goodField e.time ∧ goodField e.substation ∧ goodField e.feeder ∧
    goodField e.location ∧ goodField e.status

instance (e : Event) : Decidable (wellFormedEvent e) := by
  unfold wellFormedEvent
  infer_instance

lemma headerRow_good : ∀ f ∈ headerRow, goodField f := by decide

lemma nl_not_mem_join_row {row : List (List Char)}
    (h : ∀ f ∈ row, goodField f) : Char.ofNat 10 ∉ joinChar ',' row := by
  intro hmem
  rcases mem_joinChar hmem with hc | ⟨f, hf, hcf⟩
  · exact absurd hc (by decide)
  · exact (h f hf).2 hcf

/-- Claim C7: for every non-empty event log with plain field values, the CSV
export consists of the exact header line
`time,substation,feeder,location,status` followed by one line per logged
event in newest-first order, and re-parsing the exported text yields exactly
the header row followed by the in-memory rows: same row count, same column
names, same values in the same field order. -/
theorem csv_roundTrip (log : List Event) (hne : log ≠ [])
    (hwf : ∀ e ∈ log, wellFormedEvent e) :
    parseCsv (encodeCsv log) = headerRow :: log.map eventRow ∧
    (parseCsv (encodeCsv log)).length = log.length + 1 ∧
    (parseCsv (encodeCsv log)).head? = some headerRow := by
  have hrowfields : ∀ row ∈ headerRow :: log.map eventRow, ∀ f ∈ row, goodField f := by
    intro row hr
    rcases List.mem_cons.mp hr with h | h
    · subst h
      exact headerRow_good
    · rcases List.mem_map.mp h with ⟨e, he, rfl⟩
      have hw := hwf e he
      intro f hf
      unfold eventRow at hf
      rcases hf with _ | ⟨_, _ | ⟨_, _ | ⟨_, _ | ⟨_, _ | ⟨_, h⟩⟩⟩⟩⟩
      · exact hw.1
      · exact hw.2.1
      · exact hw.2.2.1
      · exact hw.2.2.2.1
      · exact hw.2.2.2.2
      · exact absurd h (List.not_mem_nil f)
  have hnonl : ∀ l ∈ (headerRow :: log.map eventRow).map (joinChar ','),
      Char.ofNat 10 ∉ l := by
    intro l hl
    rcases List.mem_map.mp hl with ⟨row, hrow, rfl⟩
    exact nl_not_mem_join_row (hrowfields row hrow)
  have hmain : parseCsv (encodeCsv log) = headerRow :: log.map eventRow := by
    unfold parseCsv encodeCsv csvLines
    rw [splitChar_concat_sep, splitChar_joinChar (by simp) hnonl,
      List.getLast?_concat, if_pos rfl, List.dropLast_concat, List.map_map]
    rw [List.map_congr_left (g := id) ?rows, List.map_id]
    case rows =>
      intro row hrow
      have hne' : row ≠ [] := by
        rcases List.mem_cons.mp hrow with h | h
        · subst h; simp [headerRow]
        · rcases List.mem_map.mp h with ⟨e, _, rfl⟩
          simp [eventRow]
      exact splitChar_joinChar hne' (fun f hf => (hrowfields row hrow f hf).1)
  refine ⟨hmain, ?_, ?_⟩
  · rw [hmain]
    simp
  · rw [hmain]
    rfl

/-- Witness for `csv_roundTrip` on a one-event log with the program's field
shapes. -/
theorem csv_roundTrip_w :
    ([(⟨"12:00:00".toList, "Substation-A".toList, "Feeder-1".toList,
        "1.0 km".toList, "Unauthorized Fence".toList⟩ : Event)] ≠ []) ∧
    (∀ e ∈ [(⟨"12:00:00".toList, "Substation-A".toList, "Feeder-1".toList,
        "1.0 km".toList, "Unauthorized Fence".toList⟩ : Event)], wellFormedEvent e) ∧
    (parseCsv (encodeCsv [⟨"12:00:00".toList, "Substation-A".toList,
        "Feeder-1".toList, "1.0 km".toList, "Unauthorized Fence".toList⟩]) =
      headerRow :: [(⟨"12:00:00".toList, "Substation-A".toList, "Feeder-1".toList,
        "1.0 km".toList, "Unauthorized Fence".toList⟩ : Event)].map eventRow ∧
    (parseCsv (encodeCsv [⟨"12:00:00".toList, "Substation-A".toList,
        "Feeder-1".toList, "1.0 km".toList, "Unauthorized Fence".toList⟩])).length =
      [(⟨"12:00:00".toList, "Substation-A".toList, "Feeder-1".toList,
        "1.0 km".toList, "Unauthorized Fence".toList⟩ : Event)].length + 1 ∧
    (parseCsv (encodeCsv [⟨"12:00:00".toList, "Substation-A".toList,
        "Feeder-1".toList, "1.0 km".toList, "Unauthorized Fence".toList⟩])).head? =
      some headerRow) := by
  refine ⟨by simp, by decide, csv_roundTrip _ (by simp) (by decide)⟩

/-- Checker for the exact shape `"<digits>.<digit><digit> km"`: a nonempty
all-digit integer part, a dot, exactly two fractional digits, then
`" km"`. -/
def isTwoDecimalKm (s : List Char) : Bool :=
  match s.reverse with
  | 'm' :: 'k' :: ' ' :: d2 :: d1 :: '.' :: rest =>
      d1.isDigit && d2.isDigit && !rest.isEmpty && rest.all Char.isDigit
  | _ => false

/-- Checker for the shape `"<digits>.<digit>[<digit>] km"`: one or two
fractional digits (what Python actually prints for `round(x, 2)`). -/
def isAtMostTwoDecimalKm (s : List Char) : Bool :=
  match s.reverse with
  | 'm' :: 'k' :: ' ' :: d2 :: d1 :: '.' :: rest =>
      d1.isDigit && d2.isDigit && !rest.isEmpty && rest.all Char.isDigit
  | 'm' :: 'k' :: ' ' :: d1 :: '.' :: rest =>
      d1.isDigit && !rest.isEmpty && rest.all Char.isDigit
  | _ => false

lemma maxList_single4 : maxList [(4 : ℝ)] = 4 := rfl

lemma detect_event_single4 (env : DetectEnv) :
    detect_event [(4 : ℝ)] env =
      some {
        time := env.now
        substation := substations.get ⟨env.substationIdx, by simp [substations]⟩
        feeder := feeders.get ⟨env.feederIdx, by simp [feeders]⟩
        location := pyRepr2 (round (env.u * 100)).toNat ++ " km".toList
        status := "Unauthorized Fence".toList } := by
  unfold detect_event
  rw [if_pos (by rw [maxList_single4]; norm_num)]

set_option maxRecDepth 4000 in
lemma pyRepr2_atMostTwo :
    ∀ k : ℕ, k < 251 → 50 ≤ k →
      isAtMostTwoDecimalKm (pyRepr2 k ++ " km".toList) = true := by decide

/-- Claim C8, counterexample: the location string does not always carry two
decimal digits.  With the uniform draw `u = 1.5` (inside `[0.5, 2.5]`) and a
triggering signal, the produced event's location is `"1.5 km"` — Python's
rendering of the float `round(1.5, 2) = 1.5` drops the trailing zero — which
is not of the form `"<two-decimal-number> km"`. -/
theorem location_two_decimals_fails :
    ((1 : ℝ) / 2 ≤ 3 / 2 ∧ (3 : ℝ) / 2 ≤ 5 / 2) ∧
    ∃ e : Event, detect_event [(4 : ℝ)] ⟨0, 0, 3 / 2, []⟩ = some e ∧
      e.location = "1.5 km".toList ∧ isTwoDecimalKm e.location = false := by
  refine ⟨⟨by norm_num, by norm_num⟩, ?_⟩
  have hdet := detect_event_single4 ⟨0, 0, 3 / 2, []⟩
  have hr : round ((⟨0, 0, 3 / 2, []⟩ : DetectEnv).u * 100) = (150 : ℤ) := by
    show round ((3 / 2 : ℝ) * 100) = (150 : ℤ)
    rw [show ((3 : ℝ) / 2 * 100) = ((150 : ℤ) : ℝ) by norm_num]
    exact round_intCast 150
  rw [hr] at hdet
  refine ⟨_, hdet, ?_, ?_⟩
  · show pyRepr2 (150 : ℤ).toNat ++ " km".toList = "1.5 km".toList
    decide
  · show isTwoDecimalKm (pyRepr2 (150 : ℤ).toNat ++ " km".toList) = false
    decide

/-- Claim C8, amended: for every event record the detector produces from a
uniform draw `u ∈ [0.5, 2.5]`, the location field is
`"<number with one or two decimal digits> km"` (Python drops a trailing
fractional zero) whose numeric value `k / 100` lies in `[0.5, 2.5]`. -/
theorem location_format_range (s : List ℝ) (env : DetectEnv) (e : Event)
    (h1 : 1 / 2 ≤ env.u) (h2 : env.u ≤ 5 / 2)
    (hdet : detect_event s env = some e) :
    ∃ k : ℕ, 50 ≤ k ∧ k ≤ 250 ∧
      e.location = pyRepr2 k ++ " km".toList ∧
      (1 / 2 : ℝ) ≤ (k : ℝ) / 100 ∧ ((k : ℝ) / 100) ≤ 5 / 2 ∧
      isAtMostTwoDecimalKm e.location = true := by
  have hloc : e.location = pyRepr2 (round (env.u * 100)).toNat ++ " km".toList := by
    unfold detect_event at hdet
    by_cases h : 3 < maxList s
    · rw [if_pos h] at hdet
      rw [← Option.some.inj hdet]
    · rw [if_neg h] at hdet
      exact Option.noConfusion hdet
  have hlow : (50 : ℤ) ≤ round (env.u * 100) := by
    rw [round_eq, Int.le_floor]
    push_cast
    linarith
  have hhigh : round (env.u * 100) ≤ (250 : ℤ) := by
    rw [round_eq, Int.floor_le_iff]
    push_cast
    linarith
  refine ⟨(round (env.u * 100)).toNat, ?_, ?_, hloc, ?_, ?_, ?_⟩
  · exact_mod_cast Int.toNat_le_toNat hlow
  · rw [Int.toNat_le]
    exact_mod_cast hhigh
  · have h50 : (50 : ℝ) ≤ ((round (env.u * 100)).toNat : ℝ) := by
      exact_mod_cast Int.toNat_le_toNat hlow
    linarith
  · have h250 : ((round (env.u * 100)).toNat : ℝ) ≤ 250 := by
      have hn := Int.toNat_le.mpr hhigh
      exact_mod_cast hn
    linarith
  · rw [hloc]
    refine pyRepr2_atMostTwo _ ?_ ?_
    · have hn := Int.toNat_le.mpr hhigh
      omega
    · exact_mod_cast Int.toNat_le_toNat hlow

/-- Witness for `location_format_range` at the draw `u = 1.23` and a
triggering one-sample signal. -/
theorem location_format_range_w :
    ((1 : ℝ) / 2 ≤ (123 : ℝ) / 100 ∧ (123 : ℝ) / 100 ≤ 5 / 2 ∧
      detect_event [(4 : ℝ)] ⟨0, 0, 123 / 100, []⟩ =
        some ⟨[], "Substation-A".toList, "Feeder-1".toList, "1.23 km".toList,
          "Unauthorized Fence".toList⟩) ∧
    ∃ k : ℕ, 50 ≤ k ∧ k ≤ 250 ∧
      ("1.23 km".toList : List Char) = pyRepr2 k ++ " km".toList ∧
      (1 / 2 : ℝ) ≤ (k : ℝ) / 100 ∧ ((k : ℝ) / 100) ≤ 5 / 2 ∧
      isAtMostTwoDecimalKm ("1.23 km".toList : List Char) = true := by
  have hdet : detect_event [(4 : ℝ)] ⟨0, 0, 123 / 100, []⟩ =
      some ⟨[], "Substation-A".toList, "Feeder-1".toList, "1.23 km".toList,
        "Unauthorized Fence".toList⟩ := by
    have h := detect_event_single4 ⟨0, 0, 123 / 100, []⟩
    have hr : round ((⟨0, 0, 123 / 100, []⟩ : DetectEnv).u * 100) = (123 : ℤ) := by
      show round ((123 / 100 : ℝ) * 100) = (123 : ℤ)
      rw [show ((123 : ℝ) / 100 * 100) = ((123 : ℤ) : ℝ) by norm_num]
      exact round_intCast 123
    rw [hr] at h
    rw [h]
    decide
  have hmain := location_format_range [(4 : ℝ)] ⟨0, 0, 123 / 100, []⟩
    ⟨[], "Substation-A".toList, "Feeder-1".toList, "1.23 km".toList,
      "Unauthorized Fence".toList⟩ (by norm_num) (by norm_num) hdet
  exact ⟨⟨by norm_num, by norm_num, hdet⟩, hmain⟩

end SmartFence
